import Mathlib

/-!
Verification development for the morning-news repository.

The definitions below are a shallow embedding of the Python code in
`src/utils.py` and `src/app.py`.  Conventions used throughout:

* Python `float` arithmetic is modelled exactly with `ℚ` (the code only
  divides/multiplies small integers and subtracts clock values).
* Python strings are modelled as `String` / `List Char`.  `str.lower()` and
  the regex classes `\d`, `\s`, `\w` are modelled over their ASCII meaning
  (the repository only feeds them ASCII or Devanagari text, and Devanagari
  has no case and is not whitespace).
* Headlines and URLs are assumed newline-free when modelling `.*$` in the
  normalizer regexes (the code only ever applies them to single-line text).
* Python regex search is modelled by deterministic scanners; every place
  where the real engine could backtrack is noted and shown to be
  deterministic for the concrete patterns of the code (a greedy `\d+` or
  `\d{1,2}` is always followed by a non-digit requirement, and a greedy
  `\s*`/`\s+` is always followed by a non-whitespace requirement).
-/

namespace MorningNews

/-! ### Character utilities (ASCII models of Python's str methods) -/

/-- ASCII decimal digit, the model of the regex class `\d`. -/
def isDigitPy (c : Char) : Bool := 48 ≤ c.toNat && c.toNat ≤ 57

/-- Python whitespace (` `, `\t`, `\n`, `\r`, `\x0b`, `\x0c`), the model of
`\s` and of the characters removed by `str.strip()`. -/
def isWsPy (c : Char) : Bool :=
  c.toNat = 32 || c.toNat = 9 || c.toNat = 10 || c.toNat = 13 ||
  c.toNat = 11 || c.toNat = 12

/-- ASCII model of `str.lower()` applied to one character. -/
def pyLower (c : Char) : Char :=
  if 65 ≤ c.toNat && c.toNat ≤ 90 then Char.ofNat (c.toNat + 32) else c

/-- ASCII uppercase letter, used by the `[A-Z]{3,4}` timezone-suffix regex. -/
def isUpperPy (c : Char) : Bool := 65 ≤ c.toNat && c.toNat ≤ 90

/-- ASCII word character (`[A-Za-z0-9_]`), the model of the regex class `\w`. -/
def isWordPy (c : Char) : Bool :=
  isDigitPy c || isUpperPy c || (97 ≤ c.toNat && c.toNat ≤ 122) || c.toNat = 95

/-- Model of `str.strip()`: drop leading and trailing whitespace. -/
def pyStrip (cs : List Char) : List Char :=
  ((cs.dropWhile isWsPy).reverse.dropWhile isWsPy).reverse

/-- Substring test, the model of Python's `needle in hay`. -/
def listContains (needle : List Char) : List Char → Bool
  | [] => needle.isEmpty
  | c :: t => needle.isPrefixOf (c :: t) || listContains needle t

/-- Model of `int(x)` on a captured string of decimal digits. -/
def digitsToNat (ds : List Char) : Nat :=
  ds.foldl (fun n c => 10 * n + (c.toNat - 48)) 0

/-- Whitespace splitter, the model of Python's `str.split()` (splits on runs
of whitespace and never produces empty words).  `acc` holds the reversed
characters of the word currently being read. -/
def pyWordsAux : List Char → List Char → List String
  | [], acc => if acc.isEmpty then [] else [String.mk acc.reverse]
  | c :: t, acc =>
    if isWsPy c then
      if acc.isEmpty then pyWordsAux t [] else String.mk acc.reverse :: pyWordsAux t []
    else pyWordsAux t (c :: acc)

/-- Model of `str.split()` on a string. -/
def pySplit (s : String) : List String := pyWordsAux s.data []

/-! ### The article record model

Articles travel through `utils.py` as Python dicts.  `validate_article`
only ever looks at whether the value is a dict and at the `headline` and
`link` entries (which must be truthy strings), so a record is modelled as
either a non-dict or a dict with those two optional fields. -/

inductive Rec where
  | notDict
  | dict (headline : Option String) (link : Option String)

/-- Model of `article.get('headline', '')` after validation has ensured presence. -/
def recHeadline : Rec → String
  | .notDict => ""
  | .dict h _ => h.getD ""

/-- Model of `article.get('link', '')` after validation has ensured presence. -/
def recLink : Rec → String
  | .notDict => ""
  | .dict _ l => l.getD ""

/-- The fixed spam denylist of `validate_article`. -/
def spam_indicators : List String :=
  ["click here", "free download", "limited time", "!!!"]

/-- Shallow embedding of `utils.validate_article` (src/utils.py:859-886):
reject non-dicts, records missing a truthy `headline` or `link`, links not
starting with `http://`/`https://`, headlines whose stripped length is
below 5, and headlines containing a spam indicator (case-insensitively). -/
def validate_article : Rec → Bool
  | .notDict => false
  | .dict h? l? =>
    match h?, l? with
    | some h, some l =>
      if h = "" then false
      else if l = "" then false
      else if ¬ ("http://".data.isPrefixOf l.data ∨ "https://".data.isPrefixOf l.data) then
        false
      else if (pyStrip h.data).length < 5 then false
      else if spam_indicators.any
          (fun ind => listContains ind.data (h.data.map pyLower)) then false
      else true
    | _, _ => false

/-! ### Normalizers used by `deduplicate_articles` -/

/-- Model of `re.sub(r'^\[.*?\]\s*', '', title)`: if the title starts with `[`, and a
`]` occurs with no newline before it, remove through that first `]` and any
following whitespace.  (`.` does not match newlines, so a newline between
the brackets makes the pattern fail.) -/
def stripBracketTag (cs : List Char) : List Char :=
  match cs with
  | '[' :: rest =>
    let pre := rest.takeWhile (fun c => c ≠ ']')
    if pre.length = rest.length then cs
    else if pre.any (fun c => c = '\n') then cs
    else (rest.drop (pre.length + 1)).dropWhile isWsPy
  | _ => cs

/-- Model of `re.sub(r'\s*\|\s*.*$', '', title)`: truncate at the first `|`, also
removing the run of whitespace immediately before it (single-line model). -/
def stripPipeSuffix (cs : List Char) : List Char :=
  let pre := cs.takeWhile (fun c => c ≠ '|')
  if pre.length = cs.length then cs
  else (pre.reverse.dropWhile isWsPy).reverse

/-- Shallow embedding of the inner `normalize_title` of
`utils.deduplicate_articles` (src/utils.py:896-903): strip a leading
bracket tag, strip a `| sitename` suffix, lowercase, remove punctuation
(`[^\w\s]`), and collapse whitespace.  The final
`re.sub(r'\s+', ' ', ·).strip()` is the single-space join of the
whitespace-separated words. -/
def normalize_title (s : String) : String :=
  let cs := stripPipeSuffix (stripBracketTag s.data)
  let cs := (cs.map pyLower).filter (fun c => isWordPy c || isWsPy c)
  String.intercalate " " (pyWordsAux cs [])

/-- Shallow embedding of the inner `normalize_url` of
`utils.deduplicate_articles` (src/utils.py:905-911): truncate at the first
`?` or `#` (single-line model of `[?#].*$`), drop trailing slashes
(`rstrip('/')`), lowercase. -/
def normalize_url (s : String) : String :=
  let cs := s.data.takeWhile (fun c => c ≠ '?' ∧ c ≠ '#')
  let cs := (cs.reverse.dropWhile (fun c => c = '/')).reverse
  String.mk (cs.map pyLower)

/-- The word set of a normalized title: `set(title.split())`. -/
def wordSet (s : String) : Finset String := (pySplit s).toFinset

/-- The similarity test the code runs against each previously seen title
(src/utils.py:929-939): guard on both word sets being non-empty, then
compare `len(A∩B)/len(A∪B)` (0 when the union is empty) against `0.8`. -/
def titleSimilar (seen title : String) : Bool :=
  let tw := wordSet title
  let sw := wordSet seen
  if 0 < tw.card ∧ 0 < sw.card then
    let i := (tw ∩ sw).card
    let u := (tw ∪ sw).card
    let sim : ℚ := if 0 < u then (i : ℚ) / u else 0
    decide (sim > 4/5)
  else false

/-- URL key of a record, as computed by the dedup loop. -/
def urlKeyOf (a : Rec) : String := normalize_url (recLink a)

/-- Title key of a record, as computed by the dedup loop. -/
def titleKeyOf (a : Rec) : String := normalize_title (recHeadline a)

/-- The main loop of `utils.deduplicate_articles` (src/utils.py:913-944).
`seenU`/`seenT` model the `seen_urls`/`seen_titles` sets (they are only
ever used through membership / an existential scan, so a list is a
faithful model). -/
def dedupGo (seenU seenT : List String) : List Rec → List Rec
  | [] => []
  | a :: as =>
    if validate_article a = false then dedupGo seenU seenT as
    else
      let u := urlKeyOf a
      let t := titleKeyOf a
      if u ∈ seenU then dedupGo seenU seenT as
      else if ∃ s ∈ seenT, titleSimilar s t = true then dedupGo seenU seenT as
      else a :: dedupGo (u :: seenU) (t :: seenT) as

/-- Shallow embedding of `utils.deduplicate_articles` (src/utils.py:888-947). -/
def deduplicate_articles (xs : List Rec) : List Rec := dedupGo [] [] xs

/-- Jaccard similarity of two finite word sets, written exactly as the spec
words it: `|A∩B| / |A∪B|` (in `ℚ`, where `0/0 = 0`). -/
def jaccardQ (A B : Finset String) : ℚ := ((A ∩ B).card : ℚ) / ((A ∪ B).card : ℚ)

/-- The deduplicator as the spec describes it (for the refinement claim):
walk the input in order, drop an article iff its normalized URL equals the
normalized URL of an earlier kept article or its normalized headline has
word-set Jaccard similarity strictly above 0.8 with the normalized headline
of an earlier kept article; keep first-seen articles unchanged. -/
def dedupeSpecGo (kept : List Rec) : List Rec → List Rec
  | [] => []
  | a :: as =>
    if (∃ b ∈ kept, urlKeyOf b = urlKeyOf a) ∨
       (∃ b ∈ kept, jaccardQ (wordSet (titleKeyOf b)) (wordSet (titleKeyOf a)) > 4/5) then
      dedupeSpecGo kept as
    else a :: dedupeSpecGo (kept ++ [a]) as

/-- Spec-side deduplicator. -/
def dedupe_spec (xs : List Rec) : List Rec := dedupeSpecGo [] xs


/-! ### Lemmas about the dedup loop -/

/-- The guarded similarity computed by the code coincides with the spec's
word-set Jaccard similarity test (in `ℚ`, `0/0 = 0`, so the code's guards
agree with the plain formula). -/
lemma titleSimilar_iff (seen title : String) :
    titleSimilar seen title = true ↔
      jaccardQ (wordSet seen) (wordSet title) > 4/5 := by
  unfold titleSimilar jaccardQ
  rcases Finset.eq_empty_or_nonempty (wordSet title) with hT | hT
  · simp [hT]
    norm_num
  · rcases Finset.eq_empty_or_nonempty (wordSet seen) with hS | hS
    · simp [hS]
      norm_num
    · have hcard : 0 < (wordSet title).card ∧ 0 < (wordSet seen).card :=
        ⟨Finset.card_pos.mpr hT, Finset.card_pos.mpr hS⟩
      have hu : 0 < ((wordSet title) ∪ (wordSet seen)).card :=
        Finset.card_pos.mpr (Finset.Nonempty.inl hT)
      simp [hcard, hu, Finset.inter_comm, Finset.union_comm]
      rw [if_pos (Finset.Nonempty.inl hS)]

/-- Generalized refinement invariant: when the seen-URL and seen-title sets
are exactly the keys of the articles kept so far, the code loop agrees with
the spec loop (on all-valid input). -/
lemma dedupGo_eq_spec (rest : List Rec) :
    ∀ kept : List Rec, (∀ a ∈ rest, validate_article a = true) →
      dedupGo ((kept.map urlKeyOf).reverse) ((kept.map titleKeyOf).reverse) rest
        = dedupeSpecGo kept rest := by
  induction rest with
  | nil => intro kept _; rfl
  | cons a as ih =>
    intro kept hv
    have hva : validate_article a = true := hv a (by simp)
    have hvs : ∀ b ∈ as, validate_article b = true := fun b hb => hv b (by simp [hb])
    have hurl : (urlKeyOf a ∈ (kept.map urlKeyOf).reverse) ↔
        (∃ b ∈ kept, urlKeyOf b = urlKeyOf a) := by
      simp [List.mem_reverse, List.mem_map]
    have htit : (∃ s ∈ (kept.map titleKeyOf).reverse, titleSimilar s (titleKeyOf a) = true) ↔
        (∃ b ∈ kept, jaccardQ (wordSet (titleKeyOf b)) (wordSet (titleKeyOf a)) > 4/5) := by
      constructor
      · rintro ⟨s, hs, hsim⟩
        rw [List.mem_reverse, List.mem_map] at hs
        rcases hs with ⟨b, hb, rfl⟩
        exact ⟨b, hb, (titleSimilar_iff _ _).mp hsim⟩
      · rintro ⟨b, hb, hj⟩
        refine ⟨titleKeyOf b, ?_, (titleSimilar_iff _ _).mpr hj⟩
        rw [List.mem_reverse, List.mem_map]
        exact ⟨b, hb, rfl⟩
    by_cases hu : ∃ b ∈ kept, urlKeyOf b = urlKeyOf a
    · simp only [dedupGo, dedupeSpecGo, hva]
      rw [if_neg (by simp), if_pos (hurl.mpr hu), if_pos (Or.inl hu)]
      exact ih kept hvs
    · by_cases ht : ∃ b ∈ kept, jaccardQ (wordSet (titleKeyOf b)) (wordSet (titleKeyOf a)) > 4/5
      · simp only [dedupGo, dedupeSpecGo, hva]
        rw [if_neg (by simp), if_neg (fun h => hu (hurl.mp h)), if_pos (htit.mpr ht),
          if_pos (Or.inr ht)]
        exact ih kept hvs
      · simp only [dedupGo, dedupeSpecGo, hva]
        rw [if_neg (by simp), if_neg (fun h => hu (hurl.mp h)),
          if_neg (fun h => ht (htit.mp h)), if_neg (by rintro (h | h) <;> [exact hu h; exact ht h])]
        have hrw1 : ((kept ++ [a]).map urlKeyOf).reverse
            = urlKeyOf a :: (kept.map urlKeyOf).reverse := by simp
        have hrw2 : ((kept ++ [a]).map titleKeyOf).reverse
            = titleKeyOf a :: (kept.map titleKeyOf).reverse := by simp
        have := ih (kept ++ [a]) hvs
        rw [hrw1, hrw2] at this
        rw [this]

/-- Claim C1: on input whose records are all valid articles, the
deduplicator drops an article exactly when its normalized URL matches the
normalized URL of an earlier kept article or its normalized headline has
word-set Jaccard similarity strictly above 0.8 with that of an earlier kept
article; first-seen articles are kept unchanged and in input order (stated
as equality with the spec-side algorithm `dedupe_spec`). -/
theorem C1_dedup_refines_spec (X : List Rec)
    (h : ∀ a ∈ X, validate_article a = true) :
    deduplicate_articles X = dedupe_spec X := by
  have := dedupGo_eq_spec X [] h
  simpa [deduplicate_articles, dedupe_spec] using this

/-- Witness for C1 at a concrete input containing a URL duplicate
(`https://A.com/x?utm=1` and `https://a.com/x/` normalize alike) and a
near-duplicate headline. -/
theorem C1_dedup_refines_spec_witness :
    (∀ a ∈ ([Rec.dict (some "Breaking market rally today in asia") (some "https://A.com/x?utm=1"),
             Rec.dict (some "Completely different other headline here") (some "https://a.com/x/"),
             Rec.dict (some "Third unrelated piece about weather patterns") (some "https://b.com/y")] : List Rec),
        validate_article a = true) ∧
      deduplicate_articles
          [Rec.dict (some "Breaking market rally today in asia") (some "https://A.com/x?utm=1"),
           Rec.dict (some "Completely different other headline here") (some "https://a.com/x/"),
           Rec.dict (some "Third unrelated piece about weather patterns") (some "https://b.com/y")]
        = dedupe_spec
          [Rec.dict (some "Breaking market rally today in asia") (some "https://A.com/x?utm=1"),
           Rec.dict (some "Completely different other headline here") (some "https://a.com/x/"),
           Rec.dict (some "Third unrelated piece about weather patterns") (some "https://b.com/y")] :=
  ⟨by decide, C1_dedup_refines_spec _ (by decide)⟩

/-- Idempotence of the dedup loop, generalized over the seen-state: running
the loop again over its own output (from the same state) changes nothing,
because every kept article already passed the checks against exactly the
keys that precede it. -/
lemma dedupGo_idem (rest : List Rec) :
    ∀ seenU seenT, dedupGo seenU seenT (dedupGo seenU seenT rest)
      = dedupGo seenU seenT rest := by
  induction rest with
  | nil => intro u t; rfl
  | cons a as ih =>
    intro u t
    by_cases hv : validate_article a = true
    · by_cases hu : urlKeyOf a ∈ u
      · have h1 : dedupGo u t (a :: as) = dedupGo u t as := by
          simp [dedupGo, hv, hu]
        rw [h1]; exact ih u t
      · by_cases ht : ∃ s ∈ t, titleSimilar s (titleKeyOf a) = true
        · have h1 : dedupGo u t (a :: as) = dedupGo u t as := by
            simp [dedupGo, hv, hu, ht]
          rw [h1]; exact ih u t
        · have h1 : dedupGo u t (a :: as)
              = a :: dedupGo (urlKeyOf a :: u) (titleKeyOf a :: t) as := by
            simp [dedupGo, hv, hu, ht]
          rw [h1]
          have h2 : dedupGo u t (a :: dedupGo (urlKeyOf a :: u) (titleKeyOf a :: t) as)
              = a :: dedupGo (urlKeyOf a :: u) (titleKeyOf a :: t)
                  (dedupGo (urlKeyOf a :: u) (titleKeyOf a :: t) as) := by
            simp [dedupGo, hv, hu, ht]
          rw [h2, ih (urlKeyOf a :: u) (titleKeyOf a :: t)]
    · have hv' : validate_article a = false := by
        cases h : validate_article a
        · rfl
        · exact absurd h hv
      have h1 : dedupGo u t (a :: as) = dedupGo u t as := by
        simp [dedupGo, hv']
      rw [h1]; exact ih u t

/-- Claim C4: the deduplicator is idempotent. -/
theorem C4_dedup_idempotent (X : List Rec) :
    deduplicate_articles (deduplicate_articles X) = deduplicate_articles X :=
  dedupGo_idem X [] []

/-- Invalid records are dropped by the loop before any duplicate
comparison: the output only contains validated records, and filtering the
invalid records away first changes nothing (so they are never comparison
anchors either). -/
lemma dedupGo_valid_filter (rest : List Rec) :
    ∀ seenU seenT,
      (dedupGo seenU seenT rest).all validate_article = true ∧
      dedupGo seenU seenT (rest.filter validate_article) = dedupGo seenU seenT rest := by
  induction rest with
  | nil => intro u t; exact ⟨rfl, rfl⟩
  | cons a as ih =>
    intro u t
    by_cases hv : validate_article a = true
    · have hf : (a :: as).filter validate_article = a :: as.filter validate_article := by
        simp [List.filter_cons, hv]
      by_cases hu : urlKeyOf a ∈ u
      · have h1 : dedupGo u t (a :: as) = dedupGo u t as := by
          simp [dedupGo, hv, hu]
        have h2 : dedupGo u t (a :: as.filter validate_article)
            = dedupGo u t (as.filter validate_article) := by
          simp [dedupGo, hv, hu]
        rw [h1, hf, h2]; exact ih u t
      · by_cases ht : ∃ s ∈ t, titleSimilar s (titleKeyOf a) = true
        · have h1 : dedupGo u t (a :: as) = dedupGo u t as := by
            simp [dedupGo, hv, hu, ht]
          have h2 : dedupGo u t (a :: as.filter validate_article)
              = dedupGo u t (as.filter validate_article) := by
            simp [dedupGo, hv, hu, ht]
          rw [h1, hf, h2]; exact ih u t
        · have h1 : dedupGo u t (a :: as)
              = a :: dedupGo (urlKeyOf a :: u) (titleKeyOf a :: t) as := by
            simp [dedupGo, hv, hu, ht]
          have h2 : dedupGo u t (a :: as.filter validate_article)
              = a :: dedupGo (urlKeyOf a :: u) (titleKeyOf a :: t)
                  (as.filter validate_article) := by
            simp [dedupGo, hv, hu, ht]
          rw [h1, hf, h2]
          refine ⟨?_, ?_⟩
          · simp only [List.all_cons, hv, Bool.true_and]
            exact (ih (urlKeyOf a :: u) (titleKeyOf a :: t)).1
          · rw [(ih (urlKeyOf a :: u) (titleKeyOf a :: t)).2]
    · have hv' : validate_article a = false := by
        cases h : validate_article a
        · rfl
        · exact absurd h hv
      have h1 : dedupGo u t (a :: as) = dedupGo u t as := by
        simp [dedupGo, hv']
      have hf : (a :: as).filter validate_article = as.filter validate_article := by
        simp [List.filter_cons, hv']
      rw [h1, hf]; exact ih u t

/-- Claim C10: every output article of the deduplicator satisfies the
validator, and records failing `validate_article` are silently dropped
before any duplicate comparison: they never appear in the output and never
serve as URL or headline comparison anchors (filtering them out first
leaves the result literally unchanged). -/
theorem C10_dedup_output_valid (X : List Rec) :
    (deduplicate_articles X).all validate_article = true ∧
      deduplicate_articles (X.filter validate_article) = deduplicate_articles X :=
  dedupGo_valid_filter X [] []

set_option maxRecDepth 4000 in
/-- Claim C5 counterexample: `validate_article` has no length threshold
exempting long headlines from the spam-indicator check.  This 127-character
headline contains `click here`, and the record satisfies every other
validity condition (the same record with `write here` instead is accepted),
yet it is rejected. -/
theorem C5_counterexample :
    validate_article (Rec.dict
        (some "Researchers warn you should never click here even in long substantive headlines because misleading links spread across networks")
        (some "https://example.com/a")) = false ∧
      validate_article (Rec.dict
        (some "Researchers warn you should never write here even in long substantive headlines because misleading links spread across networks")
        (some "https://example.com/a")) = true := by
  exact ⟨by decide, by decide⟩

/-- Claim C5 as amended: a headline containing a spam indicator
(case-insensitively) is rejected regardless of its length; there is no
length exemption. -/
theorem C5_spam_rejected_at_any_length (h l : String)
    (hspam : ∃ ind ∈ spam_indicators, listContains ind.data (h.data.map pyLower) = true) :
    validate_article (Rec.dict (some h) (some l)) = false := by
  have hany : spam_indicators.any
      (fun ind => listContains ind.data (h.data.map pyLower)) = true := by
    rw [List.any_eq_true]
    rcases hspam with ⟨i, hi, hc⟩
    exact ⟨i, hi, hc⟩
  simp only [validate_article, hany]
  split
  · rfl
  · split
    · rfl
    · split
      · rfl
      · split
        · rfl
        · simp

/-- Witness for the amended C5: a short spam headline with an otherwise
valid record is rejected via the theorem. -/
theorem C5_spam_rejected_at_any_length_witness :
    validate_article (Rec.dict (some "Limited time offer on markets")
      (some "https://example.com/b")) = false :=
  C5_spam_rejected_at_any_length _ _ (by decide)

/-! ### The time model

`parse_relative_time` (src/utils.py:306-370) lowercases and strips its
input, then tries a fixed list of regex patterns in order, returning the
first converter's result (the converters never raise, so the
`except (ValueError, TypeError): continue` is never taken); if no pattern
matched it scans a fixed table of special phrases.  "Now" is a parameter:
`utcNow` models `datetime.now(timezone.utc)` and `localNow` models the
naive `datetime.now()`, both as rational hours since the Unix epoch. -/

structure Clock where
  utcNow : ℚ
  localNow : ℚ

/-- Model of a Python `datetime`: wall-clock hours since the epoch as
written on the face of the value, plus `utcoffset()` in hours (`none` for a
naive datetime). -/
structure PyDatetime where
  wall : ℚ
  tz : Option ℚ

/-- Model of Python datetime subtraction, in hours: aware minus aware uses
absolute instants, naive minus naive compares wall clocks, and mixing an
aware with a naive datetime raises `TypeError` (modelled as `none`). -/
def pySubHours (a b : PyDatetime) : Option ℚ :=
  match a.tz, b.tz with
  | some ta, some tb => some ((a.wall - ta) - (b.wall - tb))
  | none, none => some (a.wall - b.wall)
  | _, _ => none

/-! #### Proleptic Gregorian calendar, as validated by `datetime` -/

def isLeap (y : Nat) : Bool := (y % 4 = 0 && y % 100 ≠ 0) || y % 400 = 0

def daysInMonth (y m : Nat) : Nat :=
  if m = 2 then (if isLeap y then 29 else 28)
  else if m = 4 ∨ m = 6 ∨ m = 9 ∨ m = 11 then 30
  else 31

/-- Range checks performed by the `datetime` constructor
(`MINYEAR = 1`, `MAXYEAR = 9999`). -/
def dateValid (y m d : Nat) : Bool :=
  1 ≤ y && y ≤ 9999 && 1 ≤ m && m ≤ 12 && 1 ≤ d && d ≤ daysInMonth y m

/-- Days from 0000-03-01 to the given date (standard civil-calendar count;
all divisions are on non-negative numbers). -/
def daysFromCivil (y m d : Nat) : Nat :=
  let yp := y - (if m ≤ 2 then 1 else 0)
  let mp := (m + 9) % 12
  let doy := (153 * mp + 2) / 5 + (d - 1)
  yp * 365 + yp / 4 - yp / 100 + yp / 400 + doy

/-- Day count of 1970-01-01 from 0000-03-01. -/
def epochDays : Nat := 719468

/-- Wall-clock hours since the Unix epoch of a date plus a time of day. -/
def wallHoursOfDate (y m d : Nat) (t : ℚ) : ℚ :=
  ((daysFromCivil y m d : ℚ) - (epochDays : ℚ)) * 24 + t

/-! #### Deterministic scanners for the regex patterns -/

/-- Leftmost-match search: try the matcher at every start position, as
`re.search` does.  (None of the patterns below can match the empty string.) -/
def scanFor (f : List Char → Option α) : List Char → Option α
  | [] => f []
  | c :: t => (f (c :: t)) <|> scanFor f t

/-- Tail of a numeric relative pattern after the captured digits:
`\s*` then one of the unit alternatives, then `\s+` and the closing word
(`ago` / `पहले`).  The greedy `\s*`/`\s+` need no backtracking because the
units and closing words start with non-whitespace. -/
def tailCheck (alts : List (List Char)) (tailw : List Char) (cs : List Char) : Bool :=
  let r := cs.dropWhile isWsPy
  alts.any fun a =>
    a.isPrefixOf r &&
      (match r.drop a.length with
       | c :: r2 => isWsPy c && tailw.isPrefixOf (r2.dropWhile isWsPy)
       | [] => false)

/-- Match one numeric relative pattern at the current position: `(\d+)`
takes the whole digit run (greedy, and the tail starts with a non-digit so
no backtracking can occur), then the unit tail must follow. -/
def matchNumAt (alts : List (List Char)) (tailw : List Char) (cs : List Char) : Option Nat :=
  let ds := cs.takeWhile isDigitPy
  if ds.isEmpty then none
  else if tailCheck alts tailw (cs.dropWhile isDigitPy) then some (digitsToNat ds)
  else none

/-- Search for `(\d+)\s*<unit>\s+<tailw>` anywhere in the text. -/
def pyFindNum (alts : List (List Char)) (tailw : List Char) (cs : List Char) : Option Nat :=
  scanFor (matchNumAt alts tailw) cs

/-- The eleven numeric relative patterns of `parse_relative_time`, in
source order, with the unit alternatives (`seconds?` tries the longer
alternative first; order is irrelevant to an any-scan), the closing word,
and the conversion multiplier of the converter lambda (Python's
`int(x)/3600` etc. is exact rational arithmetic on these values). -/
def relPatterns : List (List (List Char) × List Char × ℚ) :=
  [(["seconds".data, "second".data], "ago".data, 1/3600),
   (["mins".data, "min".data], "ago".data, 1/60),
   (["minutes".data, "minute".data], "ago".data, 1/60),
   (["hrs".data, "hr".data], "ago".data, 1),
   (["hours".data, "hour".data], "ago".data, 1),
   (["days".data, "day".data], "ago".data, 24),
   (["weeks".data, "week".data], "ago".data, 168),
   (["months".data, "month".data], "ago".data, 720),
   (["घंटे".data], "पहले".data, 1),
   (["मिनट".data], "पहले".data, 1/60),
   (["दिन".data], "पहले".data, 24)]

/-- Try the numeric relative patterns in order. -/
def tryRelAux : List (List (List Char) × List Char × ℚ) → List Char → Option ℚ
  | [], _ => none
  | p :: ps, cs =>
    match pyFindNum p.1 p.2.1 cs with
    | some n => some ((n : ℚ) * p.2.2)
    | none => tryRelAux ps cs

def tryRel (cs : List Char) : Option ℚ := tryRelAux relPatterns cs

/-- Character-class matcher for fixed-shape patterns (used by the ISO
pattern): consume one character per class, returning the capture and the
remainder. -/
def matchClasses : List (Char → Bool) → List Char → Option (List Char × List Char)
  | [], cs => some ([], cs)
  | _ :: _, [] => none
  | p :: ps, c :: cs =>
    if p c then
      match matchClasses ps cs with
      | some r => some (c :: r.1, r.2)
      | none => none
    else none

/-- Classes of the capture of `(\d{4}-\d{2}-\d{2}T\d{2}:\d{2}:\d{2})` with
`re.IGNORECASE` (the separator matches `T` or `t`; the timezone suffix is
outside the capture). -/
def isoClasses : List (Char → Bool) :=
  [isDigitPy, isDigitPy, isDigitPy, isDigitPy, fun c => c = '-',
   isDigitPy, isDigitPy, fun c => c = '-',
   isDigitPy, isDigitPy, fun c => c = 'T' || c = 't',
   isDigitPy, isDigitPy, fun c => c = ':',
   isDigitPy, isDigitPy, fun c => c = ':',
   isDigitPy, isDigitPy]

def isoSearch (cs : List Char) : Option (List Char) :=
  scanFor (fun t => (matchClasses isoClasses t).map (fun r => r.1)) cs

/-- Model of `timestamp_str.replace('Z', '+00:00')` (only the uppercase
`Z` is replaced). -/
def replaceZ : List Char → List Char
  | [] => []
  | c :: t =>
    if c = 'Z' then '+' :: '0' :: '0' :: ':' :: '0' :: '0' :: replaceZ t
    else c :: replaceZ t

/-- Consume exactly `n` digits, accumulating their value. -/
def parseFixedDigits : Nat → Nat → List Char → Option (Nat × List Char)
  | 0, acc, cs => some (acc, cs)
  | _ + 1, _, [] => none
  | n + 1, acc, c :: cs =>
    if isDigitPy c then parseFixedDigits n (10 * acc + (c.toNat - 48)) cs else none

def expectChar (ch : Char) : List Char → Option (List Char)
  | [] => none
  | c :: cs => if c = ch then some cs else none

/-- Time-of-day part of `datetime.fromisoformat`: `HH:MM` or `HH:MM:SS`
(the repository never produces fractional seconds), validated like the
`datetime` constructor. -/
def parseIsoTime (cs : List Char) : Option (ℚ × List Char) :=
  match parseFixedDigits 2 0 cs with
  | none => none
  | some (h, r1) =>
    match r1 with
    | ':' :: r2 =>
      match parseFixedDigits 2 0 r2 with
      | none => none
      | some (m, r3) =>
        match r3 with
        | ':' :: r4 =>
          match parseFixedDigits 2 0 r4 with
          | some (sec, r5) =>
            if h < 24 && m < 60 && sec < 60 then
              some ((h : ℚ) + (m : ℚ) / 60 + (sec : ℚ) / 3600, r5)
            else none
          | none =>
            if h < 24 && m < 60 then some ((h : ℚ) + (m : ℚ) / 60, r3) else none
        | _ =>
          if h < 24 && m < 60 then some ((h : ℚ) + (m : ℚ) / 60, r3) else none
    | _ => none

/-- Offset part of `datetime.fromisoformat` after the sign: `HH:MM`
(optionally `:SS`), consuming the whole remainder. -/
def parseOffset (cs : List Char) : Option ℚ :=
  match parseFixedDigits 2 0 cs with
  | none => none
  | some (h, r1) =>
    match r1 with
    | ':' :: r2 =>
      match parseFixedDigits 2 0 r2 with
      | none => none
      | some (m, r3) =>
        match r3 with
        | [] => if h < 24 && m < 60 then some ((h : ℚ) + (m : ℚ) / 60) else none
        | ':' :: r4 =>
          match parseFixedDigits 2 0 r4 with
          | none => none
          | some (sec, r5) =>
            match r5 with
            | [] =>
              if h < 24 && m < 60 && sec < 60 then
                some ((h : ℚ) + (m : ℚ) / 60 + (sec : ℚ) / 3600)
              else none
            | _ => none
        | _ => none
    | _ => none

/-- Model of `datetime.fromisoformat` as used here: `YYYY-MM-DD`, then
optionally one arbitrary separator character followed by a time of day and
an optional `+HH:MM`/`-HH:MM` offset.  A value with no offset suffix is
offset-naive (`tz = none`). -/
def fromisoformat (cs : List Char) : Option PyDatetime :=
  match parseFixedDigits 4 0 cs with
  | none => none
  | some (y, r1) =>
    match expectChar '-' r1 with
    | none => none
    | some r2 =>
      match parseFixedDigits 2 0 r2 with
      | none => none
      | some (m, r3) =>
        match expectChar '-' r3 with
        | none => none
        | some r4 =>
          match parseFixedDigits 2 0 r4 with
          | none => none
          | some (d, r5) =>
            if dateValid y m d = false then none
            else
              match r5 with
              | [] => some ⟨wallHoursOfDate y m d 0, none⟩
              | _ :: r6 =>
                match parseIsoTime r6 with
                | none => none
                | some (t, rem) =>
                  match rem with
                  | [] => some ⟨wallHoursOfDate y m d t, none⟩
                  | '+' :: r7 =>
                    match parseOffset r7 with
                    | none => none
                    | some off => some ⟨wallHoursOfDate y m d t, some off⟩
                  | '-' :: r7 =>
                    match parseOffset r7 with
                    | none => none
                    | some off => some ⟨wallHoursOfDate y m d t, some (-off)⟩
                  | _ => none

/-- Shallow embedding of `utils.parse_iso_timestamp` (src/utils.py:372-381):
replace `Z`, parse with `fromisoformat`, subtract from the aware
`datetime.now(timezone.utc)`; every exception (parse failure, or the
`TypeError` from subtracting a naive value from an aware one) is caught and
becomes `None`. -/
def parse_iso_timestamp (utcNow : ℚ) (s : String) : Option ℚ :=
  match fromisoformat (replaceZ s.data) with
  | none => none
  | some dt =>
    match pySubHours ⟨utcNow, some 0⟩ dt with
    | none => none
    | some q => some q

/-- Greedy `\d{1,2}`: one or two digits.  The patterns below always follow
it with a non-digit requirement, so taking the maximal run of length at
most 2 needs no backtracking. -/
def take12Digits (cs : List Char) : Option (List Char × List Char) :=
  match cs with
  | c :: rest =>
    if isDigitPy c then
      match rest with
      | c2 :: rest2 => if isDigitPy c2 then some ([c, c2], rest2) else some ([c], rest)
      | [] => some ([c], [])
    else none
  | [] => none

/-- Exactly four digits (`\d{4}`). -/
def take4Digits (cs : List Char) : Option (List Char × List Char) :=
  match cs with
  | c1 :: c2 :: c3 :: c4 :: rest =>
    if isDigitPy c1 && isDigitPy c2 && isDigitPy c3 && isDigitPy c4 then
      some ([c1, c2, c3, c4], rest)
    else none
  | _ => none

/-- Match the capture of `(\d{1,2}:\d{2}\s*(AM|PM))` at the current
position (the input has already been lowercased, so only `am`/`pm` can
occur). -/
def matchTimeAt (cs : List Char) : Option (List Char) :=
  match take12Digits cs with
  | none => none
  | some (ds, r1) =>
    match r1 with
    | ':' :: m1 :: m2 :: r2 =>
      if isDigitPy m1 && isDigitPy m2 then
        let ws := r2.takeWhile isWsPy
        match r2.dropWhile isWsPy with
        | a :: m :: _ =>
          if (a = 'a' || a = 'p') && m = 'm' then
            some (ds ++ ':' :: m1 :: m2 :: (ws ++ [a, m]))
          else none
        | _ => none
      else none
    | _ => none

def timeSearch (cs : List Char) : Option (List Char) := scanFor matchTimeAt cs

/-- Match the capture of `(\d{1,2}<sep>\d{1,2}<sep>\d{4})` at the current
position. -/
def matchDateAt (sep : Char) (cs : List Char) : Option (List Char) :=
  match take12Digits cs with
  | none => none
  | some (p1, r1) =>
    match r1 with
    | c1 :: r2 =>
      if c1 = sep then
        match take12Digits r2 with
        | none => none
        | some (p2, r3) =>
          match r3 with
          | c2 :: r4 =>
            if c2 = sep then
              match take4Digits r4 with
              | none => none
              | some (p3, _) => some (p1 ++ c1 :: (p2 ++ c2 :: p3))
            else none
          | [] => none
      else none
    | [] => none

def dateSearch (sep : Char) (cs : List Char) : Option (List Char) :=
  scanFor (matchDateAt sep) cs

/-- Model of `re.sub(r'\s*[A-Z]{3,4}$', '', ·)` in `parse_time_today`:
remove a trailing run of 3 or more uppercase letters (at most 4 of them,
the leftmost match of the greedy quantifier) plus the whitespace just
before them. -/
def stripTzSuffix (cs : List Char) : List Char :=
  let r := cs.reverse
  let ups := r.takeWhile isUpperPy
  if 3 ≤ ups.length then ((r.drop (min ups.length 4)).dropWhile isWsPy).reverse
  else cs

/-- Model of `datetime.strptime(·, '%I:%M %p')`: a 1-2 digit hour in 1..12,
`:`, minutes (two digits on every captured input; value at most 59), at
least one whitespace (whitespace in a strptime format matches `\s+`), and
`am`/`pm` ending the string; returns the 24-hour clock hour and the
minutes. -/
def strptimeTime (cs : List Char) : Option (Nat × Nat) :=
  match take12Digits cs with
  | none => none
  | some (ds, r1) =>
    let i := digitsToNat ds
    if 1 ≤ i && i ≤ 12 then
      match expectChar ':' r1 with
      | none => none
      | some r2 =>
        match take12Digits r2 with
        | none => none
        | some (ms, r3) =>
          let m := digitsToNat ms
          if m ≤ 59 then
            match r3 with
            | w :: r4 =>
              if isWsPy w then
                match r4.dropWhile isWsPy with
                | [a, mm] =>
                  if mm = 'm' then
                    if a = 'a' then some (if i = 12 then 0 else i, m)
                    else if a = 'p' then some (if i = 12 then 12 else i + 12, m)
                    else none
                  else none
                | _ => none
              else none
            | [] => none
          else none
    else none

/-- Shallow embedding of `utils.parse_time_today` (src/utils.py:383-406):
parse `%I:%M %p`, place it on today's date (`now.replace(hour, minute)`),
move to yesterday if that instant is in the future, and return `now` minus
it in hours; any failure returns `None`. -/
def parse_time_today (localNow : ℚ) (s : String) : Option ℚ :=
  match strptimeTime (stripTzSuffix (pyStrip s.data)) with
  | none => none
  | some (h, m) =>
    let midnight : ℚ := ((Int.floor (localNow / 24) : ℤ) : ℚ) * 24
    let t : ℚ := midnight + (h : ℚ) + (m : ℚ) / 60
    let t2 := if localNow < t then t - 24 else t
    some (localNow - t2)

/-- Model of `datetime.strptime` with format `%m<sep>%d<sep>%Y`: a 1-2
digit month, the separator, a 1-2 digit day, the separator, exactly four
digits of year, consuming the whole string. -/
def parseDateDigits (sep : Char) (cs : List Char) : Option (Nat × Nat × Nat) :=
  match take12Digits cs with
  | none => none
  | some (ms, r1) =>
    match expectChar sep r1 with
    | none => none
    | some r2 =>
      match take12Digits r2 with
      | none => none
      | some (ds, r3) =>
        match expectChar sep r3 with
        | none => none
        | some r4 =>
          match take4Digits r4 with
          | none => none
          | some (ys, r5) =>
            match r5 with
            | [] => some (digitsToNat ms, digitsToNat ds, digitsToNat ys)
            | _ => none

/-- Shallow embedding of `utils.parse_date_format` (src/utils.py:408-420):
`datetime.strptime(·, '%m/%d/%Y')` (or with `-`), validated by the
`datetime` constructor, then `now - date` in hours (which is negative for a
future date); any failure returns `None`. -/
def parse_date_format (localNow : ℚ) (sep : Char) (s : String) : Option ℚ :=
  match parseDateDigits sep s.data with
  | none => none
  | some (m, d, y) =>
    if dateValid y m d then some (localNow - wallHoursOfDate y m d 0) else none

/-- The special-phrase table of `parse_relative_time` (src/utils.py:348-365),
in insertion order; the code returns the value of the first phrase contained
in the text. -/
def specialCases : List (List Char × ℚ) :=
  [("just now".data, 0), ("a moment ago".data, 0), ("few seconds ago".data, 0),
   ("a minute ago".data, 1/60), ("an hour ago".data, 1), ("today".data, 0),
   ("this morning".data, 6), ("this afternoon".data, 3), ("this evening".data, 1),
   ("yesterday".data, 24), ("a day ago".data, 24), ("last night".data, 12),
   ("this week".data, 72), ("last week".data, 168), ("a week ago".data, 168)]

def findSpecial (cs : List Char) : Option ℚ :=
  specialCases.foldr (fun p acc => if listContains p.1 cs then some p.2 else acc) none

/-- Lowercase and strip, as `parse_relative_time` does before matching. -/
def pyClean (s : String) : List Char := pyStrip (s.data.map pyLower)

/-- The pattern list of `parse_relative_time`, in source order.  A match
returns the converter's result directly (so an inner `None`, e.g. from
`parse_iso_timestamp`, is returned as the final result and the special
phrases are not consulted). -/
def tryPatterns (clock : Clock) (cs : List Char) : Option (Option ℚ) :=
  match tryRel cs with
  | some q => some (some q)
  | none =>
    match isoSearch cs with
    | some cap => some (parse_iso_timestamp clock.utcNow (String.mk cap))
    | none =>
      match timeSearch cs with
      | some cap => some (parse_time_today clock.localNow (String.mk cap))
      | none =>
        match dateSearch '/' cs with
        | some cap => some (parse_date_format clock.localNow '/' (String.mk cap))
        | none =>
          match dateSearch '-' cs with
          | some cap => some (parse_date_format clock.localNow '-' (String.mk cap))
          | none => none

/-- Shallow embedding of `utils.parse_relative_time` (src/utils.py:306-370). -/
def parse_relative_time (clock : Clock) (s : String) : Option ℚ :=
  if s.data.isEmpty then none
  else
    match tryPatterns clock (pyClean s) with
    | some r => r
    | none => findSpecial (pyClean s)

/-- The body of `utils.is_within_timeframe` over the outcome of evaluating
the parse: the surrounding `try/except` turns any internal error into
`True` (fail-open), an unparsable timestamp (`None`) is included, and a
parsed age is included iff it is at most `hours + 1`. -/
def is_within_timeframe_eval (r : Except String (Option ℚ)) (hours : ℚ) : Bool :=
  match r with
  | .error _ => true
  | .ok none => true
  | .ok (some p) => decide (p ≤ hours + 1)

/-- Shallow embedding of `utils.is_within_timeframe` (src/utils.py:422-436). -/
def is_within_timeframe (clock : Clock) (s : String) (hours : ℚ) : Bool :=
  if s.data.isEmpty then true
  else is_within_timeframe_eval (.ok (parse_relative_time clock s)) hours

/-! ### Theorems about the timeframe filter (C2) -/

/-- Claim C2: the timeframe filter includes an article whose timestamp is
Unknown (unparsable or absent), includes a parsed age `p` exactly when
`p ≤ window + 1`, and an internal error during evaluation yields `true`
(fail-open) rather than propagating. -/
theorem C2_timeframe_filter :
    (∀ e hours, is_within_timeframe_eval (.error e) hours = true)
    ∧ (∀ clock s hours, parse_relative_time clock s = none →
        is_within_timeframe clock s hours = true)
    ∧ (∀ clock s hours p, parse_relative_time clock s = some p →
        (is_within_timeframe clock s hours = true ↔ p ≤ hours + 1)) := by
  refine ⟨fun e hours => rfl, ?_, ?_⟩
  · intro clock s hours hp
    unfold is_within_timeframe
    by_cases hs : s.data.isEmpty
    · rw [if_pos hs]
    · rw [if_neg hs]
      simp [is_within_timeframe_eval, hp]
  · intro clock s hours p hp
    unfold is_within_timeframe
    have hs : ¬ (s.data.isEmpty = true) := by
      intro hd
      unfold parse_relative_time at hp
      rw [if_pos hd] at hp
      cases hp
    rw [if_neg hs]
    simp [is_within_timeframe_eval, hp]

/-- Witness for C2: the age 25 parsed from `25 hours ago` is included for
window 24 (the one-hour tolerance) via the theorem; the error branch is
exercised directly. -/
theorem C2_timeframe_filter_witness :
    parse_relative_time ⟨0, 0⟩ "25 hours ago" = some 25
    ∧ is_within_timeframe ⟨0, 0⟩ "25 hours ago" 24 = true
    ∧ is_within_timeframe_eval (.error "boom") 24 = true := by
  have h25 : parse_relative_time ⟨0, 0⟩ "25 hours ago" = some 25 := by
    have h : parse_relative_time ⟨0, 0⟩ "25 hours ago" = some (((25 : ℕ) : ℚ) * 1) := by rfl
    rw [h]; norm_num
  exact ⟨h25,
    (C2_timeframe_filter.2.2 ⟨0, 0⟩ "25 hours ago" 24 25 h25).mpr (by norm_num),
    C2_timeframe_filter.1 "boom" 24⟩

/-! ### The ISO-timestamp path (C9, and a lemma shared with C8)

The regex capture `(\d{4}-\d{2}-\d{2}T\d{2}:\d{2}:\d{2})` never includes a
timezone designator, so `datetime.fromisoformat` yields an offset-naive
value, and subtracting it from the offset-aware `datetime.now(timezone.utc)`
raises `TypeError`, which `parse_iso_timestamp` swallows into `None`. -/

lemma matchClasses_spec :
    ∀ (ps : List (Char → Bool)) cs cap r, matchClasses ps cs = some (cap, r) →
      cs = cap ++ r ∧ List.Forall₂ (fun p c => p c = true) ps cap := by
  intro ps
  induction ps with
  | nil =>
    intro cs cap r h
    unfold matchClasses at h
    injection h with h'
    injection h' with h1 h2
    subst h1; subst h2
    exact ⟨rfl, List.Forall₂.nil⟩
  | cons p ps ih =>
    intro cs cap r h
    cases cs with
    | nil => exact absurd h (by simp [matchClasses])
    | cons c t =>
      unfold matchClasses at h
      by_cases hp : p c = true
      · rw [if_pos hp] at h
        cases hm : matchClasses ps t with
        | none => rw [hm] at h; cases h
        | some pr =>
          rw [hm] at h
          injection h with h'
          injection h' with h1 h2
          subst h1; subst h2
          obtain ⟨heq, hf⟩ := ih t pr.1 pr.2 (by rw [hm])
          exact ⟨by rw [heq]; rfl, List.Forall₂.cons hp hf⟩
      · rw [if_neg hp] at h; cases h

lemma scanFor_eq_some {α : Type} {f : List Char → Option α} :
    ∀ cs a, scanFor f cs = some a → ∃ s, List.IsSuffix s cs ∧ f s = some a := by
  intro cs
  induction cs with
  | nil => intro a h; exact ⟨[], List.nil_suffix, h⟩
  | cons c t ih =>
    intro a h
    unfold scanFor at h
    cases hf : f (c :: t) with
    | some b =>
      rw [hf] at h
      simp at h
      subst h
      exact ⟨c :: t, List.suffix_refl _, hf⟩
    | none =>
      rw [hf] at h
      simp at h
      obtain ⟨s, hs, hfs⟩ := ih a h
      exact ⟨s, hs.trans (List.suffix_cons c t), hfs⟩

/-- Characters accepted by a digit class are not structural characters. -/
lemma isDigitPy_ne (c : Char) (h : isDigitPy c = true) :
    c ≠ 'Z' ∧ c ≠ '+' ∧ c ≠ '-' ∧ c ≠ ':' := by
  refine ⟨?_, ?_, ?_, ?_⟩ <;> (rintro rfl; exact absurd h (by decide))

lemma replaceZ_eq_self : ∀ cs : List Char, (∀ c ∈ cs, c ≠ 'Z') → replaceZ cs = cs := by
  intro cs
  induction cs with
  | nil => intro _; rfl
  | cons c t ih =>
    intro h
    unfold replaceZ
    rw [if_neg (h c (by simp)), ih (fun d hd => h d (by simp [hd]))]

/-- Helper: the time-of-day part of an ISO capture (`dd:dd:dd`) either fails
validation or consumes the whole remainder. -/
lemma parseIsoTime_digits (a b c d e f : Char)
    (ha : isDigitPy a = true) (hb : isDigitPy b = true) (hc : isDigitPy c = true)
    (hd : isDigitPy d = true) (he : isDigitPy e = true) (hf : isDigitPy f = true) :
    parseIsoTime [a, b, ':', c, d, ':', e, f] = none ∨
      ∃ t, parseIsoTime [a, b, ':', c, d, ':', e, f] = some (t, []) := by
  unfold parseIsoTime
  simp only [parseFixedDigits, ha, hb, hc, hd, he, hf, if_true]
  split
  · exact Or.inr ⟨_, rfl⟩
  · exact Or.inl rfl

/-- On every capture of the ISO pattern, a successful `fromisoformat` parse
is offset-naive (the capture has no timezone suffix). -/
lemma fromisoformat_capture (cap : List Char)
    (hshape : List.Forall₂ (fun p c => p c = true) isoClasses cap) :
    ∀ dt, fromisoformat (replaceZ cap) = some dt → dt.tz = none := by
  simp only [isoClasses, List.forall₂_cons_left_iff, List.forall₂_nil_left_iff] at hshape
  obtain ⟨c0, w0, h0, ⟨c1, w1, h1, ⟨c2, w2, h2, ⟨c3, w3, h3, ⟨c4, w4, h4,
    ⟨c5, w5, h5, ⟨c6, w6, h6, ⟨c7, w7, h7, ⟨c8, w8, h8, ⟨c9, w9, h9,
    ⟨c10, w10, h10, ⟨c11, w11, h11, ⟨c12, w12, h12, ⟨c13, w13, h13,
    ⟨c14, w14, h14, ⟨c15, w15, h15, ⟨c16, w16, h16, ⟨c17, w17, h17,
    ⟨c18, w18, h18, hnil, hq18⟩, hq17⟩, hq16⟩, hq15⟩, hq14⟩, hq13⟩, hq12⟩,
    hq11⟩, hq10⟩, hq9⟩, hq8⟩, hq7⟩, hq6⟩, hq5⟩, hq4⟩, hq3⟩, hq2⟩, hq1⟩, hq0⟩ := hshape
  subst hnil; subst hq18; subst hq17; subst hq16; subst hq15; subst hq14
  subst hq13; subst hq12; subst hq11; subst hq10; subst hq9; subst hq8
  subst hq7; subst hq6; subst hq5; subst hq4; subst hq3; subst hq2
  subst hq1; subst hq0
  have e4 : c4 = '-' := of_decide_eq_true h4
  have e7 : c7 = '-' := of_decide_eq_true h7
  have e13 : c13 = ':' := of_decide_eq_true h13
  have e16 : c16 = ':' := of_decide_eq_true h16
  subst e4; subst e7; subst e13; subst e16
  have hz : replaceZ [c0, c1, c2, c3, '-', c5, c6, '-', c8, c9, c10, c11, c12, ':',
      c14, c15, ':', c17, c18] = [c0, c1, c2, c3, '-', c5, c6, '-', c8, c9, c10,
      c11, c12, ':', c14, c15, ':', c17, c18] := by
    apply replaceZ_eq_self
    intro c hc
    simp at hc
    rcases hc with rfl | rfl | rfl | rfl | rfl | rfl | rfl | rfl | rfl | rfl | rfl |
      rfl | rfl | rfl | rfl | rfl | rfl | rfl | rfl
    · exact (isDigitPy_ne c h0).1
    · exact (isDigitPy_ne c h1).1
    · exact (isDigitPy_ne c h2).1
    · exact (isDigitPy_ne c h3).1
    · decide
    · exact (isDigitPy_ne c h5).1
    · exact (isDigitPy_ne c h6).1
    · decide
    · exact (isDigitPy_ne c h8).1
    · exact (isDigitPy_ne c h9).1
    · rcases Bool.or_eq_true_iff.mp h10 with h | h
      · rw [of_decide_eq_true h]; decide
      · rw [of_decide_eq_true h]; decide
    · exact (isDigitPy_ne c h11).1
    · exact (isDigitPy_ne c h12).1
    · decide
    · exact (isDigitPy_ne c h14).1
    · exact (isDigitPy_ne c h15).1
    · decide
    · exact (isDigitPy_ne c h17).1
    · exact (isDigitPy_ne c h18).1
  rw [hz]
  intro dt hdt
  unfold fromisoformat at hdt
  rcases parseIsoTime_digits c11 c12 c14 c15 c17 c18 h11 h12 h14 h15 h17 h18 with
    hpt | ⟨t, hpt⟩
  · simp only [parseFixedDigits, h0, h1, h2, h3, h5, h6, h8, h9, if_true,
      expectChar] at hdt
    simp [hpt] at hdt
  · simp only [parseFixedDigits, h0, h1, h2, h3, h5, h6, h8, h9, if_true,
      expectChar] at hdt
    simp [hpt] at hdt
    rw [← hdt.2]

/-- Helper for the audit trail of C9/C8: on any string, if the ISO pattern
matched, the whole `parse_iso_timestamp` call returns `None`. -/
lemma parse_iso_on_capture (utcNow : ℚ) (cs cap : List Char)
    (h : isoSearch cs = some cap) :
    parse_iso_timestamp utcNow (String.mk cap) = none := by
  obtain ⟨s, -, hfs⟩ := scanFor_eq_some cs cap h
  cases hm : matchClasses isoClasses s with
  | none => rw [hm] at hfs; cases hfs
  | some pr =>
    rw [hm] at hfs
    simp at hfs
    obtain ⟨-, hshape⟩ := matchClasses_spec isoClasses s pr.1 pr.2 hm
    rw [hfs] at hshape
    unfold parse_iso_timestamp
    rw [show (String.mk cap).data = cap from rfl]
    cases hf : fromisoformat (replaceZ cap) with
    | none => rfl
    | some dt =>
      have htz := fromisoformat_capture cap hshape dt hf
      obtain ⟨wall, tz⟩ := dt
      simp only at htz
      subst htz
      rfl

/-- Claim C9 (evaluating the code at the failing input): an ISO-8601
timestamp, with or without the `Z` suffix, never yields an age — the
capture drops the timezone designator, the parsed value is offset-naive,
and subtracting it from the aware `datetime.now(timezone.utc)` raises the
`TypeError` that the function swallows into `None` (Unknown), for every
current time. -/
theorem C9_iso_timestamps_yield_unknown (clock : Clock) :
    parse_relative_time clock "2024-06-01T10:05:00Z" = none
    ∧ parse_relative_time clock "2024-06-01T10:05:00" = none := by
  constructor
  · show parse_relative_time clock "2024-06-01T10:05:00Z" = none
    unfold parse_relative_time tryPatterns
    rw [show tryRel (pyClean "2024-06-01T10:05:00Z") = none from by decide,
      show isoSearch (pyClean "2024-06-01T10:05:00Z")
        = some "2024-06-01t10:05:00".data from by decide]
    simp only [if_neg (by decide : ¬ ("2024-06-01T10:05:00Z".data.isEmpty = true))]
    exact parse_iso_on_capture clock.utcNow (pyClean "2024-06-01T10:05:00Z") _ (by decide)
  · show parse_relative_time clock "2024-06-01T10:05:00" = none
    unfold parse_relative_time tryPatterns
    rw [show tryRel (pyClean "2024-06-01T10:05:00") = none from by decide,
      show isoSearch (pyClean "2024-06-01T10:05:00")
        = some "2024-06-01t10:05:00".data from by decide]
    simp only [if_neg (by decide : ¬ ("2024-06-01T10:05:00".data.isEmpty = true))]
    exact parse_iso_on_capture clock.utcNow (pyClean "2024-06-01T10:05:00") _ (by decide)

/-! ### Evaluation of the numeric relative patterns on canonical texts (C3) -/

lemma takeWhile_nil_of_all {p : Char → Bool} :
    ∀ l : List Char, (∀ c ∈ l, p c = false) → l.takeWhile p = [] := by
  intro l h
  cases l with
  | nil => rfl
  | cons c t => simp [List.takeWhile_cons, h c (by simp)]

lemma dropWhile_eq_self_of_takeWhile_nil {p : Char → Bool} :
    ∀ l : List Char, l.takeWhile p = [] → l.dropWhile p = l := by
  intro l h
  cases l with
  | nil => rfl
  | cons c t =>
    rw [List.takeWhile_cons] at h
    by_cases hp : p c = true
    · simp [hp] at h
    · have hpf : p c = false := by
        cases hpc : p c
        · rfl
        · exact absurd hpc hp
      simp [List.dropWhile_cons, hpf]

lemma takeWhile_append_nil {p : Char → Bool} :
    ∀ l1 l2 : List Char, l1.takeWhile p = [] → l2.takeWhile p = [] →
      (l1 ++ l2).takeWhile p = [] := by
  intro l1 l2 h1 h2
  cases l1 with
  | nil => simpa using h2
  | cons c t =>
    rw [List.takeWhile_cons] at h1
    by_cases hp : p c = true
    · simp [hp] at h1
    · have hpf : p c = false := by
        cases hpc : p c
        · rfl
        · exact absurd hpc hp
      simp [List.takeWhile_cons, hpf]

lemma takeWhile_digits_append (ds rest : List Char)
    (hds : ∀ c ∈ ds, isDigitPy c = true) (hrest : rest.takeWhile isDigitPy = []) :
    (ds ++ rest).takeWhile isDigitPy = ds := by
  induction ds with
  | nil => simpa using hrest
  | cons c t ih =>
    simp only [List.cons_append, List.takeWhile_cons, hds c (by simp), if_true]
    rw [ih (fun d hd => hds d (by simp [hd]))]

lemma dropWhile_digits_append (ds rest : List Char)
    (hds : ∀ c ∈ ds, isDigitPy c = true) (hrest : rest.takeWhile isDigitPy = []) :
    (ds ++ rest).dropWhile isDigitPy = rest := by
  induction ds with
  | nil => simpa using dropWhile_eq_self_of_takeWhile_nil rest hrest
  | cons c t ih =>
    simp only [List.cons_append, List.dropWhile_cons, hds c (by simp), if_true]
    rw [ih (fun d hd => hds d (by simp [hd]))]

/-- Searching `(\d+)\s*<unit>\s+<tail>` in a digit run followed by `rest`:
the leftmost match, if any, starts at the first digit and captures the whole
run; otherwise the search continues in `rest`. -/
lemma pyFindNum_digits (alts : List (List Char)) (tailw : List Char) :
    ∀ (ds rest : List Char), (∀ c ∈ ds, isDigitPy c = true) →
      rest.takeWhile isDigitPy = [] →
      pyFindNum alts tailw (ds ++ rest)
        = if ds = [] then pyFindNum alts tailw rest
          else if tailCheck alts tailw rest then some (digitsToNat ds)
          else pyFindNum alts tailw rest := by
  intro ds
  induction ds with
  | nil => intro rest _ _; simp
  | cons c t ih =>
    intro rest hds hrest
    rw [if_neg (by simp)]
    have htw : ((c :: t) ++ rest).takeWhile isDigitPy = c :: t :=
      takeWhile_digits_append _ _ hds hrest
    have hdw : ((c :: t) ++ rest).dropWhile isDigitPy = rest :=
      dropWhile_digits_append _ _ hds hrest
    have hmna : matchNumAt alts tailw ((c :: t) ++ rest)
        = if tailCheck alts tailw rest then some (digitsToNat (c :: t)) else none := by
      unfold matchNumAt
      rw [htw, hdw]
      simp [List.isEmpty]
    have hstep : pyFindNum alts tailw ((c :: t) ++ rest)
        = ((matchNumAt alts tailw ((c :: t) ++ rest)) <|>
            scanFor (matchNumAt alts tailw) (t ++ rest)) := rfl
    cases htc : tailCheck alts tailw rest with
    | true =>
      rw [if_pos rfl]
      rw [hstep, hmna, htc]
      simp
    | false =>
      rw [if_neg (by simp [htc])]
      rw [hstep, hmna, htc]
      simp only [if_neg (by simp : ¬ (false = true)), Option.none_orElse]
      have hrec : scanFor (matchNumAt alts tailw) (t ++ rest)
          = pyFindNum alts tailw (t ++ rest) := rfl
      rw [hrec, ih rest (fun d hd => hds d (by simp [hd])) hrest]
      by_cases ht : t = []
      · simp [ht]
      · rw [if_neg ht, if_neg (by simp [htc])]

/-- The conversion multiplier of the first relative pattern whose unit tail
matches `rest`. -/
def selectMult : List (List (List Char) × List Char × ℚ) → List Char → Option ℚ
  | [], _ => none
  | p :: ps, rest => if tailCheck p.1 p.2.1 rest then some p.2.2 else selectMult ps rest

lemma tryRelAux_digits :
    ∀ (ps : List (List (List Char) × List Char × ℚ)) (ds rest : List Char),
      ds ≠ [] → (∀ c ∈ ds, isDigitPy c = true) → rest.takeWhile isDigitPy = [] →
      (∀ p ∈ ps, pyFindNum p.1 p.2.1 rest = none) →
      tryRelAux ps (ds ++ rest)
        = match selectMult ps rest with
          | some mult => some ((digitsToNat ds : ℚ) * mult)
          | none => none := by
  intro ps
  induction ps with
  | nil => intro ds rest _ _ _ _; rfl
  | cons p ps ih =>
    intro ds rest hne hds hrest hnone
    show (match pyFindNum p.1 p.2.1 (ds ++ rest) with
      | some n => some ((n : ℚ) * p.2.2)
      | none => tryRelAux ps (ds ++ rest)) = _
    rw [pyFindNum_digits p.1 p.2.1 ds rest hds hrest, if_neg hne]
    cases htc : tailCheck p.1 p.2.1 rest with
    | true =>
      rw [if_pos rfl]
      show some ((digitsToNat ds : ℚ) * p.2.2) = _
      unfold selectMult
      rw [htc]
      simp
    | false =>
      rw [if_neg (by simp), hnone p (by simp)]
      unfold selectMult
      rw [htc]
      simp only [Bool.false_eq_true, if_false]
      exact ih ds rest hne hds hrest (fun q hq => hnone q (by simp [hq]))

lemma isDigitPy_not_ws (c : Char) (h : isDigitPy c = true) : isWsPy c = false := by
  simp [isDigitPy] at h
  simp [isWsPy]
  omega

lemma pyLower_digit (c : Char) (h : isDigitPy c = true) : pyLower c = c := by
  simp [isDigitPy] at h
  unfold pyLower
  rw [if_neg (by simp; omega)]

lemma map_pyLower_digits (ds : List Char) (hds : ∀ c ∈ ds, isDigitPy c = true) :
    ds.map pyLower = ds := by
  induction ds with
  | nil => rfl
  | cons c t ih =>
    simp only [List.map_cons, pyLower_digit c (hds c (by simp)),
      ih (fun d hd => hds d (by simp [hd]))]

/-- Lowercasing and stripping leave a text of the form `<digits><unit tail>`
unchanged. -/
lemma pyClean_digits_append (ds rest : List Char) (hne : ds ≠ [])
    (hds : ∀ c ∈ ds, isDigitPy c = true)
    (hmap : rest.map pyLower = rest)
    (hrev : rest.reverse.takeWhile isWsPy = []) :
    pyClean (String.mk (ds ++ rest)) = ds ++ rest := by
  unfold pyClean pyStrip
  rw [show (String.mk (ds ++ rest)).data = ds ++ rest from rfl]
  rw [List.map_append, map_pyLower_digits ds hds, hmap]
  have hds_ws : ∀ c ∈ ds, isWsPy c = false := fun c hc => isDigitPy_not_ws c (hds c hc)
  have h1 : (ds ++ rest).takeWhile isWsPy = [] := by
    cases ds with
    | nil => exact absurd rfl hne
    | cons c t => simp [List.takeWhile_cons, hds_ws c (by simp)]
  rw [dropWhile_eq_self_of_takeWhile_nil _ h1]
  have h2 : (ds ++ rest).reverse.takeWhile isWsPy = [] := by
    rw [List.reverse_append]
    refine takeWhile_append_nil _ _ hrev (takeWhile_nil_of_all _ ?_)
    intro c hc
    rw [List.mem_reverse] at hc
    exact hds_ws c hc
  rw [dropWhile_eq_self_of_takeWhile_nil _ h2, List.reverse_reverse]

/-- Evaluation of `parse_relative_time` on `<digits><unit tail>` when the
unit tail selects the pattern with multiplier `mult` and matches none of the
patterns by itself. -/
lemma parse_unit_text (clock : Clock) (ds rest : List Char) (hne : ds ≠ [])
    (hds : ∀ c ∈ ds, isDigitPy c = true)
    (hmap : rest.map pyLower = rest)
    (hrev : rest.reverse.takeWhile isWsPy = [])
    (hrtw : rest.takeWhile isDigitPy = [])
    (hnone : ∀ p ∈ relPatterns, pyFindNum p.1 p.2.1 rest = none)
    (mult : ℚ) (hsel : selectMult relPatterns rest = some mult) :
    parse_relative_time clock (String.mk (ds ++ rest))
      = some ((digitsToNat ds : ℚ) * mult) := by
  unfold parse_relative_time
  have hcons : ∃ c t, ds = c :: t := by
    cases ds with
    | nil => exact absurd rfl hne
    | cons c t => exact ⟨c, t, rfl⟩
  obtain ⟨c, t, rfl⟩ := hcons
  rw [if_neg (by simp)]
  rw [pyClean_digits_append _ _ hne hds hmap hrev]
  unfold tryPatterns
  have htr : tryRel ((c :: t) ++ rest) = some ((digitsToNat (c :: t) : ℚ) * mult) := by
    have h := tryRelAux_digits relPatterns (c :: t) rest hne hds hrtw hnone
    rw [hsel] at h
    exact h
  rw [htr]

/-- Claim C3: every text `<N> <unit> ago` (and the Hindi `पहले` variants)
converts to exactly `N` times the fixed multiplier of its unit — seconds
divided by 3600, minutes divided by 60, hours times 1, days times 24, weeks
times 168, months times 720 — with fractional hours permitted.  `N` ranges
over all non-empty digit strings. -/
theorem C3_numeric_relative_patterns (clock : Clock) (ds : List Char)
    (hne : ds ≠ []) (hds : ∀ c ∈ ds, isDigitPy c = true) :
    parse_relative_time clock (String.mk (ds ++ " seconds ago".data))
        = some ((digitsToNat ds : ℚ) / 3600)
    ∧ parse_relative_time clock (String.mk (ds ++ " minutes ago".data))
        = some ((digitsToNat ds : ℚ) / 60)
    ∧ parse_relative_time clock (String.mk (ds ++ " hours ago".data))
        = some ((digitsToNat ds : ℚ))
    ∧ parse_relative_time clock (String.mk (ds ++ " days ago".data))
        = some ((digitsToNat ds : ℚ) * 24)
    ∧ parse_relative_time clock (String.mk (ds ++ " weeks ago".data))
        = some ((digitsToNat ds : ℚ) * 168)
    ∧ parse_relative_time clock (String.mk (ds ++ " months ago".data))
        = some ((digitsToNat ds : ℚ) * 720)
    ∧ parse_relative_time clock (String.mk (ds ++ " घंटे पहले".data))
        = some ((digitsToNat ds : ℚ))
    ∧ parse_relative_time clock (String.mk (ds ++ " मिनट पहले".data))
        = some ((digitsToNat ds : ℚ) / 60)
    ∧ parse_relative_time clock (String.mk (ds ++ " दिन पहले".data))
        = some ((digitsToNat ds : ℚ) * 24) := by
  refine ⟨?_, ?_, ?_, ?_, ?_, ?_, ?_, ?_, ?_⟩
  · rw [parse_unit_text clock ds (" seconds ago".data) hne hds (by decide) (by decide)
      (by decide) (by decide) (1/3600) (by rfl), mul_one_div]
  · rw [parse_unit_text clock ds (" minutes ago".data) hne hds (by decide) (by decide)
      (by decide) (by decide) (1/60) (by rfl), mul_one_div]
  · rw [parse_unit_text clock ds (" hours ago".data) hne hds (by decide) (by decide)
      (by decide) (by decide) 1 (by rfl), mul_one]
  · rw [parse_unit_text clock ds (" days ago".data) hne hds (by decide) (by decide)
      (by decide) (by decide) 24 (by rfl)]
  · rw [parse_unit_text clock ds (" weeks ago".data) hne hds (by decide) (by decide)
      (by decide) (by decide) 168 (by rfl)]
  · rw [parse_unit_text clock ds (" months ago".data) hne hds (by decide) (by decide)
      (by decide) (by decide) 720 (by rfl)]
  · rw [parse_unit_text clock ds (" घंटे पहले".data) hne hds (by decide) (by decide)
      (by decide) (by decide) 1 (by rfl), mul_one]
  · rw [parse_unit_text clock ds (" मिनट पहले".data) hne hds (by decide) (by decide)
      (by decide) (by decide) (1/60) (by rfl), mul_one_div]
  · rw [parse_unit_text clock ds (" दिन पहले".data) hne hds (by decide) (by decide)
      (by decide) (by decide) 24 (by rfl)]

/-- Witness for C3: the spec's concrete examples, via the theorem. -/
theorem C3_numeric_relative_patterns_witness :
    parse_relative_time ⟨0, 0⟩ "30 minutes ago" = some (1/2)
    ∧ parse_relative_time ⟨0, 0⟩ "2 days ago" = some 48 := by
  have h1 := (C3_numeric_relative_patterns ⟨0, 0⟩ ['3', '0'] (by decide) (by decide)).2.1
  have h2 :=
    (C3_numeric_relative_patterns ⟨0, 0⟩ ['2'] (by decide) (by decide)).2.2.2.1
  rw [show String.mk (['3', '0'] ++ " minutes ago".data) = "30 minutes ago" from rfl]
    at h1
  rw [show String.mk (['2'] ++ " days ago".data) = "2 days ago" from rfl] at h2
  rw [show digitsToNat ['3', '0'] = 30 from by decide] at h1
  rw [show digitsToNat ['2'] = 2 from by decide] at h2
  constructor
  · rw [h1]; norm_num
  · rw [h2]; norm_num


/-! ### Non-negativity of the time normalizer (C8) -/

lemma tryRelAux_nonneg :
    ∀ (ps : List (List (List Char) × List Char × ℚ)) (cs : List Char) (q : ℚ),
      (∀ p ∈ ps, 0 ≤ p.2.2) → tryRelAux ps cs = some q → 0 ≤ q := by
  intro ps
  induction ps with
  | nil => intro cs q _ h; cases h
  | cons p ps ih =>
    intro cs q hall h
    unfold tryRelAux at h
    cases hf : pyFindNum p.1 p.2.1 cs with
    | some n =>
      rw [hf] at h
      injection h with h2
      rw [← h2]
      exact mul_nonneg (Nat.cast_nonneg n) (hall p (by simp))
    | none =>
      rw [hf] at h
      exact ih cs q (fun r hr => hall r (by simp [hr])) h

lemma relPatterns_mults_nonneg : ∀ p ∈ relPatterns, 0 ≤ p.2.2 := by
  intro p hp
  simp only [relPatterns, List.mem_cons, List.not_mem_nil, or_false] at hp
  rcases hp with rfl | rfl | rfl | rfl | rfl | rfl | rfl | rfl | rfl | rfl | rfl <;>
    norm_num

lemma findSpecial_nonneg (cs : List Char) (q : ℚ) :
    findSpecial cs = some q → 0 ≤ q := by
  have hgen : ∀ (l : List (List Char × ℚ)), (∀ p ∈ l, 0 ≤ p.2) →
      l.foldr (fun p acc => if listContains p.1 cs then some p.2 else acc) none
        = some q → 0 ≤ q := by
    intro l
    induction l with
    | nil => intro _ h; cases h
    | cons p ps ih =>
      intro hall h
      simp only [List.foldr_cons] at h
      by_cases hc : listContains p.1 cs = true
      · rw [if_pos hc] at h
        injection h with h2
        rw [← h2]
        exact hall p (by simp)
      · rw [if_neg hc] at h
        exact ih (fun r hr => hall r (by simp [hr])) h
  intro h
  refine hgen specialCases ?_ h
  intro p hp
  simp only [specialCases, List.mem_cons, List.not_mem_nil, or_false] at hp
  rcases hp with rfl | rfl | rfl | rfl | rfl | rfl | rfl | rfl | rfl | rfl | rfl |
    rfl | rfl | rfl | rfl <;> norm_num

lemma strptimeTime_bounds (cs : List Char) (h m : Nat) :
    strptimeTime cs = some (h, m) → h ≤ 23 ∧ m ≤ 59 := by
  intro hst
  unfold strptimeTime at hst
  cases h1 : take12Digits cs with
  | none => simp only [h1] at hst; cases hst
  | some p1 =>
    obtain ⟨ds1, r1⟩ := p1
    simp only [h1] at hst
    by_cases hi : (1 ≤ digitsToNat ds1 && digitsToNat ds1 ≤ 12) = true
    · rw [if_pos hi] at hst
      simp only [Bool.and_eq_true, decide_eq_true_eq] at hi
      cases h2 : expectChar ':' r1 with
      | none => simp only [h2] at hst; cases hst
      | some r2 =>
        simp only [h2] at hst
        cases h3 : take12Digits r2 with
        | none => simp only [h3] at hst; cases hst
        | some p2 =>
          obtain ⟨ms, r3⟩ := p2
          cases r3 with
          | nil => simp [h3] at hst
          | cons w r4 =>
            simp only [h3] at hst
            by_cases hm59 : digitsToNat ms ≤ 59
            · rw [if_pos hm59] at hst
              by_cases hw : isWsPy w = true
              · rw [if_pos hw] at hst
                cases h4 : r4.dropWhile isWsPy with
                | nil => simp only [h4] at hst; cases hst
                | cons a rest =>
                  cases rest with
                  | nil => simp only [h4] at hst; cases hst
                  | cons mm rest2 =>
                    cases rest2 with
                    | cons x xs => simp only [h4] at hst; cases hst
                    | nil =>
                      simp only [h4] at hst
                      by_cases hmm : mm = 'm'
                      · rw [if_pos hmm] at hst
                        by_cases ha : a = 'a'
                        · rw [if_pos ha] at hst
                          simp only [Option.some.injEq, Prod.mk.injEq] at hst
                          obtain ⟨rfl, rfl⟩ := hst
                          refine ⟨?_, hm59⟩
                          split <;> omega
                        · rw [if_neg ha] at hst
                          by_cases hp : a = 'p'
                          · rw [if_pos hp] at hst
                            simp only [Option.some.injEq, Prod.mk.injEq] at hst
                            obtain ⟨rfl, rfl⟩ := hst
                            refine ⟨?_, hm59⟩
                            split <;> omega
                          · rw [if_neg hp] at hst; cases hst
                      · rw [if_neg hmm] at hst; cases hst
              · rw [if_neg hw] at hst; cases hst
            · rw [if_neg hm59] at hst; cases hst
    · rw [if_neg hi] at hst; cases hst

lemma parse_time_today_nonneg (localNow : ℚ) (s : String) (q : ℚ) :
    parse_time_today localNow s = some q → 0 ≤ q := by
  intro hp
  unfold parse_time_today at hp
  cases hst : strptimeTime (stripTzSuffix (pyStrip s.data)) with
  | none => simp only [hst] at hp; cases hp
  | some hm =>
    obtain ⟨h, m⟩ := hm
    simp only [hst] at hp
    obtain ⟨hb1, hb2⟩ := strptimeTime_bounds _ h m hst
    have hmid : ((Int.floor (localNow / 24) : ℤ) : ℚ) * 24 ≤ localNow := by
      have hfl : ((Int.floor (localNow / 24) : ℤ) : ℚ) ≤ localNow / 24 :=
        Int.floor_le (localNow / 24)
      calc ((Int.floor (localNow / 24) : ℤ) : ℚ) * 24
          ≤ (localNow / 24) * 24 := by nlinarith
        _ = localNow := by field_simp
    have hh : (h : ℚ) ≤ 23 := by exact_mod_cast hb1
    have hm59 : (m : ℚ) ≤ 59 := by exact_mod_cast hb2
    have hmdiv : (m : ℚ) / 60 ≤ 59 / 60 := by gcongr
    split at hp
    · injection hp with hp'
      rw [← hp']
      rename_i hlt
      linarith
    · injection hp with hp'
      rw [← hp']
      rename_i hnlt
      push_neg at hnlt
      linarith

/-- Claim C8 counterexample: a slash calendar date in the future yields a
negative age.  With the naive local clock at 1970-01-05 00:00 (96 hours
after the epoch), the text `12/31/2099` parses to a negative number of
hours, contradicting "every numeric result is non-negative". -/
theorem C8_counterexample :
    parse_relative_time ⟨0, 96⟩ "12/31/2099" = some (-1139448)
    ∧ ((-1139448 : ℚ) < 0) := by
  constructor
  · have h : parse_relative_time ⟨0, 96⟩ "12/31/2099"
        = some (96 - wallHoursOfDate 2099 12 31 0) := by rfl
    rw [h]
    norm_num [wallHoursOfDate, daysFromCivil, epochDays]
  · norm_num

/-- Claim C8 as amended: every numeric result of the time normalizer on
text containing no slash/dash calendar date is non-negative — the relative
patterns multiply a captured natural number by a non-negative multiplier,
the time-of-day pattern clamps future instants to yesterday, the special
phrases map to non-negative constants, and the ISO pattern never produces a
numeric result at all; only the two calendar-date patterns can return
negative ages (for dates in the future). -/
theorem C8_nonneg_without_date_patterns (clock : Clock) (s : String) (q : ℚ)
    (h1 : dateSearch '/' (pyClean s) = none)
    (h2 : dateSearch '-' (pyClean s) = none)
    (hq : parse_relative_time clock s = some q) : 0 ≤ q := by
  unfold parse_relative_time at hq
  by_cases hs : s.data.isEmpty = true
  · rw [if_pos hs] at hq; cases hq
  · rw [if_neg hs] at hq
    unfold tryPatterns at hq
    cases ht : tryRel (pyClean s) with
    | some q2 =>
      rw [ht] at hq
      simp only at hq
      injection hq with hq2
      rw [← hq2]
      exact tryRelAux_nonneg relPatterns (pyClean s) q2 relPatterns_mults_nonneg ht
    | none =>
      rw [ht] at hq
      cases hi : isoSearch (pyClean s) with
      | some cap =>
        rw [hi] at hq
        simp only at hq
        rw [parse_iso_on_capture clock.utcNow (pyClean s) cap hi] at hq
        cases hq
      | none =>
        rw [hi] at hq
        cases htm : timeSearch (pyClean s) with
        | some cap =>
          rw [htm] at hq
          simp only at hq
          exact parse_time_today_nonneg clock.localNow (String.mk cap) q hq
        | none =>
          rw [htm, h1, h2] at hq
          exact findSpecial_nonneg (pyClean s) q hq

/-- Witness for the amended C8: `5 hours ago` contains no calendar date and
its parsed age is non-negative, via the theorem. -/
theorem C8_nonneg_without_date_patterns_witness :
    dateSearch '/' (pyClean "5 hours ago") = none
    ∧ dateSearch '-' (pyClean "5 hours ago") = none
    ∧ parse_relative_time ⟨0, 0⟩ "5 hours ago" = some 5
    ∧ (0 : ℚ) ≤ 5 := by
  have hp : parse_relative_time ⟨0, 0⟩ "5 hours ago" = some 5 := by
    have h : parse_relative_time ⟨0, 0⟩ "5 hours ago" = some (((5 : ℕ) : ℚ) * 1) := by
      rfl
    rw [h]; norm_num
  exact ⟨by decide, by decide, hp,
    C8_nonneg_without_date_patterns ⟨0, 0⟩ "5 hours ago" 5 (by decide) (by decide) hp⟩

/-! ### The orchestrator (src/app.py, C6 and C7)

`run_scraping_task` (src/app.py:58-193) runs six collector phases in a
fixed order, each in its own `try/except`, then Excel generation, then a
`finally` block that clears the running flag and emits a success flag equal
to "the error list is empty".  The phases are modelled as state
transformers parameterized by each collector's outcome; `stopAfter = some k`
models a `/api/stop` request (src/app.py:226-235) arriving after phase `k`
finished (the handler sets `scraping_state['running'] = False`; the task
body never reads that flag). -/

structure TaskState where
  running : Bool
  errors : List String
  news : List (String × List Rec)
  invoked : List String
  excelPath : Option String

/-- Outcomes of the external calls a run makes: the five named collectors,
`others.fetch_all_others` (which returns a dict of groups), and
`create_excel_file` (which returns a success flag and a path, or raises). -/
structure RunInputs where
  singapore : Except String (List Rec)
  japan : Except String (List Rec)
  india : Except String (List Rec)
  korea : Except String (List Rec)
  yahoo : Except String (List Rec)
  others : Except String (List (String × List Rec))
  excel : Except String (Bool × String)

/-- One named collector phase: on success record the articles under the
group key; on an exception record an empty list under the key and append
`"<name>: <error>"` to the run's error list.  The collector is invoked
either way. -/
def collectPhase (name : String) (out : Except String (List Rec))
    (s : TaskState) : TaskState :=
  match out with
  | .ok arts =>
    { s with invoked := s.invoked ++ [name], news := s.news ++ [(name, arts)] }
  | .error e =>
    { s with invoked := s.invoked ++ [name], news := s.news ++ [(name, [])],
             errors := s.errors ++ [name ++ ": " ++ e] }

/-- The "Others" phase: on success `news_by_source.update(other_sources)`;
on an exception only an error is recorded (no group key is written). -/
def othersPhase (out : Except String (List (String × List Rec)))
    (s : TaskState) : TaskState :=
  match out with
  | .ok groups =>
    { s with invoked := s.invoked ++ ["Others"], news := s.news ++ groups }
  | .error e =>
    { s with invoked := s.invoked ++ ["Others"],
             errors := s.errors ++ ["Others: " ++ e] }

/-- The Excel phase: a successful `create_excel_file` stores the path; a
returned failure or an exception appends an error. -/
def excelPhase (out : Except String (Bool × String)) (s : TaskState) : TaskState :=
  match out with
  | .ok (true, path) => { s with excelPath := some path }
  | .ok (false, _) => { s with errors := s.errors ++ ["Excel generation failed"] }
  | .error e => { s with errors := s.errors ++ ["Excel generation: " ++ e] }

/-- Model of `api_stop_scraping`: a stop request arriving right after phase
`idx` clears the running flag (and does nothing else to the task). -/
def applyStop (stopAfter : Option Nat) (idx : Nat) (s : TaskState) : TaskState :=
  if stopAfter = some idx then { s with running := false } else s

/-- Shallow embedding of `app.run_scraping_task`: the six phases run
unconditionally in source order — no statement between them reads
`scraping_state['running']` — followed by Excel generation and the
`finally` block. -/
def run_scraping_task (inp : RunInputs) (stopAfter : Option Nat) : TaskState :=
  let s0 : TaskState := ⟨true, [], [], [], none⟩
  let s1 := applyStop stopAfter 0 (collectPhase "Singapore" inp.singapore s0)
  let s2 := applyStop stopAfter 1 (collectPhase "Japan" inp.japan s1)
  let s3 := applyStop stopAfter 2 (collectPhase "India" inp.india s2)
  let s4 := applyStop stopAfter 3 (collectPhase "Korea" inp.korea s3)
  let s5 := applyStop stopAfter 4 (collectPhase "Yahoo Finance" inp.yahoo s4)
  let s6 := applyStop stopAfter 5 (othersPhase inp.others s5)
  let s7 := excelPhase inp.excel s6
  { s7 with running := false }

/-- The success flag emitted by the `finally` block:
`len(scraping_state['errors']) == 0`. -/
def runSuccess (inp : RunInputs) (stopAfter : Option Nat) : Bool :=
  (run_scraping_task inp stopAfter).errors.isEmpty

lemma collectPhase_invoked (name : String) (out : Except String (List Rec))
    (s : TaskState) : (collectPhase name out s).invoked = s.invoked ++ [name] := by
  cases out <;> rfl

lemma othersPhase_invoked (out : Except String (List (String × List Rec)))
    (s : TaskState) : (othersPhase out s).invoked = s.invoked ++ ["Others"] := by
  cases out <;> rfl

lemma excelPhase_invoked (out : Except String (Bool × String)) (s : TaskState) :
    (excelPhase out s).invoked = s.invoked := by
  cases out with
  | ok v =>
    obtain ⟨b, p⟩ := v
    cases b <;> rfl
  | error e => rfl

lemma applyStop_invoked (stopAfter : Option Nat) (idx : Nat) (s : TaskState) :
    (applyStop stopAfter idx s).invoked = s.invoked := by
  unfold applyStop
  split <;> rfl

/-- Claim C6 (evaluating the code at the failing scenario): whenever the
stop request arrives — in particular right after the first collector — the
orchestrator still invokes all six collector phases, because
`run_scraping_task` never reads the flag that `/api/stop` clears.  The
invocation list is independent of the stop request. -/
theorem C6_stop_flag_never_observed (inp : RunInputs) (stopAfter : Option Nat) :
    (run_scraping_task inp stopAfter).invoked
        = ["Singapore", "Japan", "India", "Korea", "Yahoo Finance", "Others"]
    ∧ (run_scraping_task inp stopAfter).invoked
        = (run_scraping_task inp none).invoked := by
  have h : ∀ st : Option Nat, (run_scraping_task inp st).invoked
      = ["Singapore", "Japan", "India", "Korea", "Yahoo Finance", "Others"] := by
    intro st
    show (excelPhase inp.excel _).invoked = _
    rw [excelPhase_invoked, applyStop_invoked, othersPhase_invoked, applyStop_invoked,
      collectPhase_invoked, applyStop_invoked, collectPhase_invoked, applyStop_invoked,
      collectPhase_invoked, applyStop_invoked, collectPhase_invoked, applyStop_invoked,
      collectPhase_invoked]
    rfl
  exact ⟨h stopAfter, (h stopAfter).trans (h none).symm⟩

/-- Claim C7: if exactly the Japan collector raises and everything else
succeeds, the run records exactly one error string mentioning Japan, stores
an empty list under the `Japan` key, still runs all remaining collectors,
writes the Excel output, and reports success iff the error list is empty
(false here). -/
theorem C7_japan_failure_isolated (jErr : String) (sg ind kr yh : List Rec)
    (groups : List (String × List Rec)) (path : String) :
    (run_scraping_task ⟨.ok sg, .error jErr, .ok ind, .ok kr, .ok yh, .ok groups,
        .ok (true, path)⟩ none).errors = ["Japan: " ++ jErr]
    ∧ (run_scraping_task ⟨.ok sg, .error jErr, .ok ind, .ok kr, .ok yh, .ok groups,
        .ok (true, path)⟩ none).news
      = [("Singapore", sg), ("Japan", []), ("India", ind), ("Korea", kr),
         ("Yahoo Finance", yh)] ++ groups
    ∧ (run_scraping_task ⟨.ok sg, .error jErr, .ok ind, .ok kr, .ok yh, .ok groups,
        .ok (true, path)⟩ none).invoked
      = ["Singapore", "Japan", "India", "Korea", "Yahoo Finance", "Others"]
    ∧ (run_scraping_task ⟨.ok sg, .error jErr, .ok ind, .ok kr, .ok yh, .ok groups,
        .ok (true, path)⟩ none).excelPath = some path
    ∧ (runSuccess ⟨.ok sg, .error jErr, .ok ind, .ok kr, .ok yh, .ok groups,
        .ok (true, path)⟩ none = true
        ↔ (run_scraping_task ⟨.ok sg, .error jErr, .ok ind, .ok kr, .ok yh, .ok groups,
            .ok (true, path)⟩ none).errors = []) := by
  refine ⟨rfl, rfl, rfl, rfl, ?_⟩
  simp [runSuccess, run_scraping_task, collectPhase, othersPhase, excelPhase, applyStop]

end MorningNews
